import Mathlib

set_option maxHeartbeats 1000000

/-
Verification of the gemfile-utils line-rewriting pipeline.

The development shallowly embeds the single source file of the repository:
lines of manifest text are `List Char`, the JavaScript regular expressions of
`parseGemLine` and `buildGemLine` are hand-compiled into deterministic
scanning functions with the leftmost-match semantics of `String.match`, and
the registry's release history is a list of records with millisecond
timestamps.  `fetchLatestVersionInfo` is modelled from the point after the
HTTP response has been deserialized; the transport is an abstract
`List Char → Option (List ReleaseRecord)` function, `none` standing for any
failure signal of the network collaborator.
-/

namespace GemfileUtils

/-- The single-quote character, by code point. -/
def squote : Char := Char.ofNat 39

/-- The double-quote character, by code point. -/
def dquote : Char := Char.ofNat 34

/-- Model of the JavaScript whitespace class (used by `trim`, `trimEnd` and
the regex class `\s`): space, tab, LF, VT, FF, CR, NBSP and the BOM. -/
def jsIsWs (c : Char) : Bool :=
  c == ' ' || c == Char.ofNat 9 || c == Char.ofNat 10 || c == Char.ofNat 13 ||
  c == Char.ofNat 11 || c == Char.ofNat 12 || c == Char.ofNat 160 || c == Char.ofNat 65279

/-- A character of the regex class `['"]`. -/
def isQuote (c : Char) : Bool := c == squote || c == dquote

/-- A character of the regex word class `\w`, as used by the boundary `\b`. -/
def isWordChar (c : Char) : Bool := c.isAlpha || c.isDigit || c == Char.ofNat 95

/-- A hexadecimal digit, for the `0x` branch of `parseInt`. -/
def isHexDigit (c : Char) : Bool :=
  c.isDigit || ('a' ≤ c && c ≤ 'f') || ('A' ≤ c && c ≤ 'F')

/-- Numeric value of a hexadecimal digit. -/
def hexDigitVal (c : Char) : Nat :=
  if c.isDigit then c.toNat - 48 else if 'a' ≤ c && c ≤ 'f' then c.toNat - 87 else c.toNat - 55

/-- Value of a run of decimal digits. -/
def decValue (ds : List Char) : Nat :=
  ds.foldl (fun acc c => acc * 10 + (c.toNat - 48)) 0

/-- Value of a run of hexadecimal digits. -/
def hexValue (ds : List Char) : Nat :=
  ds.foldl (fun acc c => acc * 16 + hexDigitVal c) 0

/-- Longest decimal-digit prefix, `none` when there is none (`parseInt`
yields `NaN` then). -/
def decDigits (s : List Char) : Option Nat :=
  let ds := s.takeWhile Char.isDigit
  if ds.isEmpty then none else some (decValue ds)

/-- The body of `parseInt` after whitespace and sign handling: a `0x`/`0X`
prefix selects hexadecimal, otherwise the longest decimal-digit prefix is
read. -/
def jsParseIntNoSign (s : List Char) : Option Nat :=
  match s with
  | '0' :: x :: r =>
    if x == 'x' || x == 'X' then
      let ds := r.takeWhile isHexDigit
      if ds.isEmpty then none else some (hexValue ds)
    else
      decDigits s
  | _ => decDigits s

/-- Model of JavaScript `parseInt(s)` with no radix argument; `none` models
`NaN`. -/
def jsParseInt (s : List Char) : Option Int :=
  match s.dropWhile jsIsWs with
  | '-' :: r => (jsParseIntNoSign r).map (fun n => -(n : Int))
  | '+' :: r => (jsParseIntNoSign r).map (fun n => (n : Int))
  | s1 => (jsParseIntNoSign s1).map (fun n => (n : Int))

/-- Model of `===` between two `parseInt` results: `NaN` compares unequal to
everything, including itself. -/
def jsNumEq : Option Int → Option Int → Bool
  | some a, some b => a == b
  | _, _ => false

/-- Model of `parseInt(v.split(".")[0])`: the leading dotted component of a
version string, parsed as an integer. -/
def jsMajorOf (v : List Char) : Option Int :=
  jsParseInt (v.takeWhile (fun c => c != '.'))

/-- Strip an exact literal prefix, returning the remainder. -/
def stripLit : List Char → List Char → Option (List Char)
  | [], s => some s
  | _ :: _, [] => none
  | c :: p, d :: s => if c = d then stripLit p s else none

/-- Model of `String.prototype.trimEnd`. -/
def jsTrimEnd (l : List Char) : List Char :=
  (l.reverse.dropWhile jsIsWs).reverse

/-- Model of `String.prototype.trim`. -/
def jsTrim (l : List Char) : List Char :=
  jsTrimEnd (l.dropWhile jsIsWs)

/-- Scan for the first index at which `pat` occurs in the remaining text. -/
def idxOfStrAux (pat : List Char) : List Char → Nat → Option Nat
  | [], i => if pat.isEmpty then some i else none
  | s@(_ :: t), i => if pat.isPrefixOf s then some i else idxOfStrAux pat t (i + 1)

/-- Model of `String.prototype.indexOf`: the index of the first occurrence,
`-1` when there is none. -/
def idxOfStr (l pat : List Char) : Int :=
  match idxOfStrAux pat l 0 with
  | some i => (i : Int)
  | none => -1

/-- Model of `String.prototype.includes`. -/
def jsIncludes : List Char → List Char → Bool
  | [], pat => pat.isEmpty
  | s@(_ :: t), pat => pat.isPrefixOf s || jsIncludes t pat

/-- One of the alternate-source markers `git:`, `github:`, `path:`,
`source:` occurs right here. -/
def altMarkerAt (s : List Char) : Bool :=
  ("git:".toList).isPrefixOf s || ("github:".toList).isPrefixOf s ||
  ("path:".toList).isPrefixOf s || ("source:".toList).isPrefixOf s

/-- Scan of the regex `\b(git:|github:|path:|source:)` carrying the previous
character for the word boundary. -/
def altSourceAux : Option Char → List Char → Bool
  | _, [] => false
  | prev, s@(c :: t) =>
    ((match prev with
      | none => true
      | some p => !(isWordChar p)) && altMarkerAt s) || altSourceAux (some c) t

/-- Model of `/\b(git:|github:|path:|source:)/.test(line)`. -/
def altSourceTest (line : List Char) : Bool := altSourceAux none line

/-- Attempt of the regex `gem\s+['"]([^'"]+)['"]` at one position: the
keyword, one or more whitespace characters, a quote, a nonempty run of
non-quote characters (the captured name) and a closing quote, which need not
match the opening one. -/
def tryGemName (s : List Char) : Option (List Char) :=
  match stripLit ("gem".toList) s with
  | none => none
  | some r1 =>
    match r1 with
    | c :: _ =>
      if jsIsWs c then
        match r1.dropWhile jsIsWs with
        | q :: r3 =>
          if isQuote q then
            match r3.takeWhile (fun c => !(isQuote c)), r3.dropWhile (fun c => !(isQuote c)) with
            | tok@(_ :: _), _ :: _ => some tok
            | _, _ => none
          else none
        | [] => none
      else none
    | [] => none

/-- Leftmost match of `line.match(/gem\s+['"]([^'"]+)['"]/)`, returning the
captured gem name. -/
def matchGemName : List Char → Option (List Char)
  | [] => none
  | s@(_ :: t) =>
    match tryGemName s with
    | some n => some n
    | none => matchGemName t

/-- A character of the constraint-operator class `[~>=<]`. -/
def opsChar (c : Char) : Bool := c == '~' || c == '>' || c == '=' || c == '<'

/-- Does the remaining text start with a quote character? -/
def quoteNext : List Char → Bool
  | q :: _ => isQuote q
  | [] => false

/-- Greedy matching of the optional trailing components
`(?:\.[0-9]+)?(?:\.[0-9]+)?` followed by the closing quote: extend with a
further `.digits` group when possible, otherwise accept here if a quote
follows. -/
def vOpt (base : List Char) (r : List Char) : Nat → Option (List Char)
  | 0 => if quoteNext r then some base else none
  | Nat.succ k =>
    match r with
    | '.' :: r1 =>
      match r1.takeWhile Char.isDigit with
      | [] => if quoteNext r then some base else none
      | ds =>
        match vOpt (base ++ '.' :: ds) (r1.dropWhile Char.isDigit) k with
        | some v => some v
        | none => if quoteNext r then some base else none
    | _ => if quoteNext r then some base else none

/-- Attempt of the regex
`['"],\s*['"]([~>=<]*\s*)?([0-9]+\.[0-9]+(?:\.[0-9]+)?(?:\.[0-9]+)?)['"]` at
one position, returning the captured numeric version portion. -/
def tryVersion (s : List Char) : Option (List Char) :=
  match s with
  | q0 :: c1 :: r1 =>
    if isQuote q0 && c1 == ',' then
      match r1.dropWhile jsIsWs with
      | q1 :: r3 =>
        if isQuote q1 then
          let r5 := (r3.dropWhile opsChar).dropWhile jsIsWs
          match r5.takeWhile Char.isDigit, r5.dropWhile Char.isDigit with
          | _ :: _, cdot :: r7 =>
            if cdot == '.' then
              match r7.takeWhile Char.isDigit with
              | [] => none
              | d2 =>
                vOpt (r5.takeWhile Char.isDigit ++ '.' :: d2) (r7.dropWhile Char.isDigit) 2
            else none
          | _, _ => none
        else none
      | [] => none
    else none
  | _ => none

/-- Leftmost match of the version-constraint regex over the whole line. -/
def versionScan : List Char → Option (List Char)
  | [] => none
  | s@(_ :: t) =>
    match tryVersion s with
    | some v => some v
    | none => versionScan t

/-- Result of `parseGemLine`. -/
structure ParsedGem where
  gemName : Option (List Char)
  currentVersion : Option (List Char)
  hasAltSource : Bool
deriving DecidableEq

/-- Model of `parseGemLine(line)`.  Note the quirk of the source: when the
name regex does not match, `hasAltSource` is reported as `false` even when an
alternate-source marker is present. -/
def parseGemLine (line : List Char) : ParsedGem :=
  let hasAltSource := altSourceTest line
  match matchGemName line with
  | none => ⟨none, none, false⟩
  | some gemName => ⟨some gemName, versionScan line, hasAltSource⟩

/-- One release record of the registry history, after deserialization; the
`created_at` timestamp is in milliseconds since the epoch. -/
structure ReleaseRecord where
  number : List Char
  prerelease : Bool
  created_at : Int
deriving DecidableEq

/-- The pair resolved by `fetchLatestVersionInfo`. -/
structure VersionInfo where
  latest : List Char
  majorReleaseDate : Int
deriving DecidableEq

/-- Model of the body of `fetchLatestVersionInfo` from the point after the
response body has been parsed.  The `getLast?` mirrors the source's
`majorVersions[majorVersions.length - 1]`; when `majorVersions` is empty the
source dereferences `undefined`, the exception is caught and `null` is
resolved, hence `none` here. -/
def fetchLatestVersionInfo (versions : List ReleaseRecord) : Option VersionInfo :=
  let stableVersions := versions.filter (fun v => !v.prerelease)
  match stableVersions with
  | [] => none
  | latest :: _ =>
    let latestVersion := latest.number
    let majorVersion := jsMajorOf latestVersion
    let majorVersions := stableVersions.filter (fun v => jsNumEq (jsMajorOf v.number) majorVersion)
    match majorVersions.getLast? with
    | none => none
    | some oldest => some ⟨latestVersion, oldest.created_at⟩

/-- The staleness threshold, in days. -/
def majorVersionAgeThreshold : Int := 180

/-- Model of `determineTargetVersion`; `today` is the current time in
milliseconds and the day count is `Math.floor` of a real division, hence
`Int.fdiv`.  An empty current version is falsy in the source and treated as
unpinned. -/
def determineTargetVersion (currentVersion : Option (List Char)) (latestVersion : List Char)
    (majorReleaseDate today : Int) : List Char :=
  let daysSinceMajorRelease := Int.fdiv (today - majorReleaseDate) 86400000
  match currentVersion with
  | none => latestVersion
  | some cv =>
    if cv = [] then latestVersion
    else
      let currentMajor := jsMajorOf cv
      let latestMajor := jsMajorOf latestVersion
      if jsNumEq currentMajor latestMajor then latestVersion
      else if daysSinceMajorRelease ≥ majorVersionAgeThreshold then latestVersion
      else cv

/-- The resolver of the specification: `fetchLatestVersionInfo` composed with
`determineTargetVersion`; `none` is the skip outcome. -/
def resolve (currentVersion : Option (List Char)) (history : List ReleaseRecord)
    (today : Int) : Option (List Char) :=
  (fetchLatestVersionInfo history).map
    (fun info => determineTargetVersion currentVersion info.latest info.majorReleaseDate today)

/-- Model of the quote-style detection of `buildGemLine`:
`originalLine.includes('NAME' in single quotes)`. -/
def quoteOf (originalLine gemName : List Char) : Char :=
  if jsIncludes originalLine (squote :: (gemName ++ [squote])) then squote else dquote

/-- Attempt of the regex `gem\s+['"]NAME['"]\s*(.*)` at one position, the
name being escaped in the source and hence matched literally; returns the
captured trailing text. -/
def tryAfterGem (gemName s : List Char) : Option (List Char) :=
  match stripLit ("gem".toList) s with
  | none => none
  | some r1 =>
    match r1 with
    | c :: _ =>
      if jsIsWs c then
        match r1.dropWhile jsIsWs with
        | q :: r3 =>
          if isQuote q then
            match stripLit gemName r3 with
            | some (q2 :: r5) => if isQuote q2 then some (r5.dropWhile jsIsWs) else none
            | _ => none
          else none
        | [] => none
      else none
    | [] => none

/-- Leftmost match of `originalLine.match(new RegExp("gem\\s+['\"]NAME['\"]\\s*(.*)"))`. -/
def matchAfterGem (gemName : List Char) : List Char → Option (List Char)
  | [] => none
  | s@(_ :: t) =>
    match tryAfterGem gemName s with
    | some r => some r
    | none => matchAfterGem gemName t

/-- Model of `afterGem.replace(/^,\s*['"][^'"]*['"]/, "")`: strip one leading
comma, whitespace and quoted token when present, else leave the text
unchanged. -/
def stripConstraint (s : List Char) : List Char :=
  match s with
  | ',' :: r1 =>
    match r1.dropWhile jsIsWs with
    | q :: r3 =>
      if isQuote q then
        match r3.dropWhile (fun c => !(isQuote c)) with
        | _ :: r5 => r5
        | [] => s
      else s
    | [] => s
  | _ => s

/-- Model of `buildGemLine(originalLine, gemName, version)`. -/
def buildGemLine (originalLine gemName version : List Char) : List Char :=
  let indent := originalLine.takeWhile jsIsWs
  let quote := quoteOf originalLine gemName
  let afterGem0 :=
    match matchAfterGem gemName originalLine with
    | some r => r
    | none => []
  let afterGem := stripConstraint afterGem0
  let newLine :=
    indent ++ "gem ".toList ++ quote :: gemName ++ quote :: ", ".toList ++
      quote :: "~> ".toList ++ version ++ [quote]
  if !(jsTrim afterGem).isEmpty then newLine ++ jsTrimEnd afterGem else newLine

/-- The guard of the per-line loop of `update`:
`line.trim().startsWith("gem ") && !(line.includes("#") && line.indexOf("#") < line.indexOf("gem"))`. -/
def isGemLine (line : List Char) : Bool :=
  ("gem ".toList).isPrefixOf (jsTrim line) &&
    !(jsIncludes line ("#".toList) && idxOfStr line ("#".toList) < idxOfStr line ("gem".toList))

/-- The body of the per-line loop of `update`.  The abstract `fetchHistory`
stands for the HTTP transport and deserialization, `none` for any failure
signal; its result feeds the pure part of `fetchLatestVersionInfo`. -/
def processLine (fetchHistory : List Char → Option (List ReleaseRecord)) (today : Int)
    (line : List Char) : List Char :=
  if isGemLine line then
    let p := parseGemLine line
    match p.gemName with
    | some gemName =>
      if !p.hasAltSource then
        match (fetchHistory gemName).bind fetchLatestVersionInfo with
        | some latestInfo =>
          buildGemLine line gemName
            (determineTargetVersion p.currentVersion latestInfo.latest
              latestInfo.majorReleaseDate today)
        | none => line
      else line
    | none => line
  else line

/-- Model of the loop of `update`: the output lines are accumulated by
appending, one per input line, in input order. -/
def update (fetchHistory : List Char → Option (List ReleaseRecord)) (today : Int)
    (lines : List (List Char)) : List (List Char) :=
  lines.foldl (fun updatedLines line => updatedLines ++ [processLine fetchHistory today line]) []

/-- Modelled from the spec: the records of the latest major line, i.e. the
non-prerelease records whose leading version component equals that of the
newest stable record. -/
def specLatestMajorLine (history : List ReleaseRecord) : List ReleaseRecord :=
  let stable := history.filter (fun v => !v.prerelease)
  match stable with
  | [] => []
  | latest :: _ => stable.filter (fun v => jsNumEq (jsMajorOf v.number) (jsMajorOf latest.number))

/-- Modelled from the spec: the earliest `created_at` among a list of
records. -/
def minCreatedAt : List ReleaseRecord → Option Int
  | [] => none
  | r :: rest =>
    match minCreatedAt rest with
    | none => some r.created_at
    | some m => some (min r.created_at m)

/-- Modelled from the spec: the quoting style of the dependency name's first
quoted occurrence on the line. -/
def specFirstQuoteStyle (gemName : List Char) : List Char → Option Char
  | [] => none
  | s@(_ :: t) =>
    if (squote :: (gemName ++ [squote])).isPrefixOf s then some squote
    else if (dquote :: (gemName ++ [dquote])).isPrefixOf s then some dquote
    else specFirstQuoteStyle gemName t

/-! Generic list lemmas -/

theorem dropWhile_append_of_all {p : Char → Bool} {xs : List Char} {y : Char} {ys : List Char}
    (hx : ∀ x ∈ xs, p x = true) (hy : p y = false) :
    (xs ++ y :: ys).dropWhile p = y :: ys := by
  induction xs with
  | nil => simp [List.dropWhile_cons, hy]
  | cons a t ih =>
    have ha : p a = true := hx a (List.mem_cons_self a t)
    simp only [List.cons_append, List.dropWhile_cons, ha, if_true]
    exact ih (fun x hx2 => hx x (List.mem_cons_of_mem a hx2))

theorem takeWhile_append_of_all {p : Char → Bool} {xs : List Char} {y : Char} {ys : List Char}
    (hx : ∀ x ∈ xs, p x = true) (hy : p y = false) :
    (xs ++ y :: ys).takeWhile p = xs := by
  induction xs with
  | nil => simp [List.takeWhile_cons, hy]
  | cons a t ih =>
    have ha : p a = true := hx a (List.mem_cons_self a t)
    simp only [List.cons_append, List.takeWhile_cons, ha, if_true]
    exact congrArg (a :: ·) (ih (fun x hx2 => hx x (List.mem_cons_of_mem a hx2)))

theorem stripLit_append : ∀ (xs ys : List Char), stripLit xs (xs ++ ys) = some ys := by
  intro xs
  induction xs with
  | nil => intro ys; rfl
  | cons c t ih => intro ys; simp [stripLit, ih]

/-! The orchestrator loop is a map over the input lines -/

theorem foldl_push_eq_append_map (f : List Char → List Char) (lines : List (List Char)) :
    ∀ acc : List (List Char),
      lines.foldl (fun updatedLines line => updatedLines ++ [f line]) acc = acc ++ lines.map f := by
  induction lines with
  | nil => intro acc; simp
  | cons a t ih => intro acc; simp [List.foldl_cons, ih]

theorem update_eq_map (fetch : List Char → Option (List ReleaseRecord)) (today : Int)
    (lines : List (List Char)) :
    update fetch today lines = lines.map (processLine fetch today) := by
  unfold update
  rw [foldl_push_eq_append_map]
  simp

/-- Claim C8: for every input line sequence and every behaviour of the
history fetcher, the output of the orchestrator has the same number of lines
as the input, and the line at each output position is exactly the processed
image of the input line at that same position, so relative order is
unchanged. -/
theorem c8_order_preservation (fetch : List Char → Option (List ReleaseRecord)) (today : Int)
    (lines : List (List Char)) :
    (update fetch today lines).length = lines.length ∧
      ∀ i : Nat, (update fetch today lines)[i]? = lines[i]?.map (processLine fetch today) := by
  rw [update_eq_map]
  exact ⟨List.length_map lines _, fun i => List.getElem?_map _ lines i⟩

/-- Claim C9: a line whose parsed `hasAltSource` flag is true is emitted
unchanged by the orchestrator, for every behaviour of the history fetcher and
every surrounding context, so it is never resolved and never rewritten. -/
theorem c9_alt_source_immutable (line : List Char)
    (h : (parseGemLine line).hasAltSource = true) :
    ∀ (fetch : List Char → Option (List ReleaseRecord)) (today : Int)
      (pre post : List (List Char)),
      processLine fetch today line = line ∧
        update fetch today (pre ++ line :: post) =
          update fetch today pre ++ line :: update fetch today post := by
  intro fetch today pre post
  have hp : processLine fetch today line = line := by
    unfold processLine
    cases hgl : isGemLine line with
    | false => simp [hgl]
    | true =>
      cases hname : (parseGemLine line).gemName with
      | none => simp [hgl, hname]
      | some n => simp [hgl, hname, h]
  refine ⟨hp, ?_⟩
  rw [update_eq_map, update_eq_map, update_eq_map, List.map_append, List.map_cons, hp]

/-- Witness for claim C9 at a concrete alternate-source line. -/
theorem c9_alt_source_immutable_witness :
    processLine (fun _ => some []) 5 ("gem 'foo', path: 'lib/foo'".toList) =
      "gem 'foo', path: 'lib/foo'".toList :=
  (c9_alt_source_immutable ("gem 'foo', path: 'lib/foo'".toList) (by decide)
    (fun _ => some []) 5 [] []).1

/-- Claim C4: a declaration line without an alternate source whose history
fetch yields no usable history, either a failure signal or a history with no
non-prerelease record, is emitted unchanged, and every other line of the file
is still processed normally. -/
theorem c4_fetch_failure_passthrough (fetch : List Char → Option (List ReleaseRecord))
    (today : Int) (line gemName : List Char) (pre post : List (List Char))
    (h1 : (parseGemLine line).gemName = some gemName)
    (h2 : (parseGemLine line).hasAltSource = false)
    (h3 : fetch gemName = none ∨
      ∃ h, fetch gemName = some h ∧ h.filter (fun v => !v.prerelease) = []) :
    update fetch today (pre ++ line :: post) =
      update fetch today pre ++ line :: update fetch today post := by
  have hp : processLine fetch today line = line := by
    unfold processLine
    cases hgl : isGemLine line with
    | false => simp [hgl]
    | true =>
      have hbind : (fetch gemName).bind fetchLatestVersionInfo = none := by
        rcases h3 with hnone | ⟨hist, hsome, hfil⟩
        · rw [hnone]; rfl
        · rw [hsome]
          show fetchLatestVersionInfo hist = none
          unfold fetchLatestVersionInfo
          rw [hfil]
      simp [hgl, h1, h2, hbind]
  rw [update_eq_map, update_eq_map, update_eq_map, List.map_append, List.map_cons, hp]

/-- Witness for claim C4: a failing fetcher leaves the declaration line and
its neighbours intact. -/
theorem c4_fetch_failure_passthrough_witness :
    update (fun _ => none) 0
        ["# c".toList, "gem \"rails\", \"7.0.0\"".toList, "gem \"x\"".toList] =
      update (fun _ => none) 0 ["# c".toList] ++
        ("gem \"rails\", \"7.0.0\"".toList) :: update (fun _ => none) 0 ["gem \"x\"".toList] :=
  c4_fetch_failure_passthrough (fun _ => none) 0 ("gem \"rails\", \"7.0.0\"".toList)
    ("rails".toList) ["# c".toList] ["gem \"x\"".toList] (by decide) (by decide) (Or.inl rfl)

/-- Claim C10: the resolver can downgrade within a major line: with a pinned
constraint 2.9.0 and a history whose only stable release is 2.3.0, the
resolver returns 2.3.0 — the numerically lower latest version — rather than
keeping the pinned constraint. -/
theorem c10_within_major_downgrade :
    resolve (some ("2.9.0".toList)) [⟨"2.3.0".toList, false, 0⟩] 3000 =
        some ("2.3.0".toList) ∧
      ("2.3.0".toList : List Char) ≠ "2.9.0".toList := by
  decide

/-! Resolver claims -/

theorem jsMajorOf_nil : jsMajorOf [] = none := rfl

theorem ne_nil_of_jsMajorOf_some {cv : List Char} {m : Int} (h : jsMajorOf cv = some m) :
    ¬cv = [] := by
  intro hnil
  rw [hnil, jsMajorOf_nil] at h
  exact Option.noConfusion h

/-- Floor-divided day counts compare against the threshold exactly when the
millisecond difference does. -/
theorem fdiv_day_threshold (x : Int) : (Int.fdiv x 86400000 ≥ 180) ↔ (15552000000 ≤ x) := by
  have h1 := Int.fdiv_add_fmod x 86400000
  have h2 := Int.fmod_nonneg' x (by norm_num : (0 : Int) < 86400000)
  have h3 := Int.fmod_lt_of_pos x (by norm_num : (0 : Int) < 86400000)
  omega

/-- Claim C2: with a pinned constraint whose leading component differs from
that of the newest stable release, the resolver adopts the latest version
exactly when the resolved major-line release date is at least 180 days before
the current time, and otherwise returns the pinned constraint unchanged. -/
theorem c2_new_major_gating (cv : List Char) (history : List ReleaseRecord) (today : Int)
    (info : VersionInfo) (cm lm : Int)
    (hf : fetchLatestVersionInfo history = some info)
    (hc : jsMajorOf cv = some cm) (hl : jsMajorOf info.latest = some lm) (hne : cm ≠ lm) :
    resolve (some cv) history today =
      some (if 15552000000 ≤ today - info.majorReleaseDate then info.latest else cv) := by
  have hcv : ¬cv = [] := ne_nil_of_jsMajorOf_some hc
  unfold resolve
  rw [hf]
  simp only [Option.map_some']
  unfold determineTargetVersion
  simp only [hcv, if_false, hc, hl]
  have heq : jsNumEq (some cm) (some lm) = false := by
    simp [jsNumEq, hne]
  rw [heq]
  simp only [Bool.false_eq_true, if_false, majorVersionAgeThreshold]
  rw [if_congr (fdiv_day_threshold (today - info.majorReleaseDate)) rfl rfl]

/-- Witness for claim C2 at the threshold boundary. -/
theorem c2_new_major_gating_witness :
    resolve (some ("1.0.0".toList)) [⟨"2.0.0".toList, false, 0⟩] 15552000000 =
      some ("2.0.0".toList) := by
  have h := c2_new_major_gating ("1.0.0".toList) [⟨"2.0.0".toList, false, 0⟩] 15552000000
    ⟨"2.0.0".toList, 0⟩ 1 2 (by decide) (by decide) (by decide) (by decide)
  rw [h]
  decide

/-- Claim C3: whenever the history has at least one non-prerelease record
(and its newest stable record carries a parsable leading component), the
resolver returns that newest stable version both for an absent constraint and
for any pinned constraint sharing its leading component. -/
theorem c3_unpinned_and_same_major_adopt_latest (history : List ReleaseRecord) (today : Int)
    (r : ReleaseRecord) (rest : List ReleaseRecord) (m : Int)
    (hs : history.filter (fun v => !v.prerelease) = r :: rest)
    (hm : jsMajorOf r.number = some m) :
    resolve none history today = some r.number ∧
      ∀ cv : List Char, jsMajorOf cv = some m →
        resolve (some cv) history today = some r.number := by
  have hself : jsNumEq (some m) (some m) = true := by simp [jsNumEq]
  obtain ⟨oldest, hlast⟩ :
      ∃ oldest, ((r :: rest).filter
        (fun v => jsNumEq (jsMajorOf v.number) (jsMajorOf r.number))).getLast? = some oldest := by
    have hcons : (r :: rest).filter
        (fun v => jsNumEq (jsMajorOf v.number) (jsMajorOf r.number)) =
        r :: rest.filter (fun v => jsNumEq (jsMajorOf v.number) (jsMajorOf r.number)) := by
      rw [List.filter_cons_of_pos]
      rw [hm, hself]
    rw [hcons]
    cases hl : (r :: rest.filter
        (fun v => jsNumEq (jsMajorOf v.number) (jsMajorOf r.number))).getLast? with
    | none => exact absurd (List.getLast?_eq_none_iff.mp hl) (List.cons_ne_nil _ _)
    | some oldest => exact ⟨oldest, rfl⟩
  have hf : fetchLatestVersionInfo history = some ⟨r.number, oldest.created_at⟩ := by
    unfold fetchLatestVersionInfo
    rw [hs]
    simp only
    rw [hlast]
  constructor
  · unfold resolve
    rw [hf]
    rfl
  · intro cv hcv
    have hcvnil : ¬cv = [] := ne_nil_of_jsMajorOf_some hcv
    unfold resolve
    rw [hf]
    simp only [Option.map_some']
    unfold determineTargetVersion
    simp only [hcvnil, if_false, hcv, hm, hself, if_true]

/-- Witness for claim C3 on a one-record history. -/
theorem c3_unpinned_and_same_major_adopt_latest_witness :
    resolve none [⟨"2.9.1".toList, false, 5⟩] 0 = some ("2.9.1".toList) ∧
      resolve (some ("2.3.0".toList)) [⟨"2.9.1".toList, false, 5⟩] 0 =
        some ("2.9.1".toList) := by
  have h := c3_unpinned_and_same_major_adopt_latest [⟨"2.9.1".toList, false, 5⟩] 0
    ⟨"2.9.1".toList, false, 5⟩ [] 2 (by decide) (by decide)
  exact ⟨h.1, h.2 ("2.3.0".toList) (by decide)⟩

/-! Claim C1: the major-line age and the ordering of the history -/

/-- Counterexample to claim C1 as stated: on a history that is not ordered
newest-first, the timestamp resolved for the latest major line is the
`created_at` of its last record in sequence order (200), not the minimum
`created_at` of the latest major line (10). -/
theorem c1_counterexample :
    fetchLatestVersionInfo [⟨"3.1.0".toList, false, 10⟩, ⟨"3.0.0".toList, false, 200⟩] =
        some ⟨"3.1.0".toList, 200⟩ ∧
      minCreatedAt (specLatestMajorLine
          [⟨"3.1.0".toList, false, 10⟩, ⟨"3.0.0".toList, false, 200⟩]) = some 10 ∧
      (200 : Int) ≠ 10 := by
  decide

/-- On a list sorted by non-increasing `created_at`, the earliest
`created_at` is that of the last element. -/
theorem minCreatedAt_sorted (l : List ReleaseRecord)
    (h : l.Pairwise (fun a b => b.created_at ≤ a.created_at)) :
    minCreatedAt l = l.getLast?.map (fun r => r.created_at) := by
  induction l with
  | nil => rfl
  | cons a t ih =>
    cases t with
    | nil => rfl
    | cons b t2 =>
      have hpc := List.pairwise_cons.mp h
      have hrec := ih hpc.2
      cases hz : (b :: t2).getLast? with
      | none => exact absurd (List.getLast?_eq_none_iff.mp hz) (List.cons_ne_nil _ _)
      | some z =>
        rw [hz] at hrec
        have hzmem : z ∈ b :: t2 := List.mem_of_mem_getLast? (by rw [hz]; rfl)
        have hle : z.created_at ≤ a.created_at := hpc.1 z hzmem
        show (match minCreatedAt (b :: t2) with
          | none => some a.created_at
          | some m => some (min a.created_at m)) =
            ((a :: b :: t2).getLast?).map (fun r => r.created_at)
        rw [hrec, List.getLast?_cons_cons, hz]
        simp only [Option.map_some']
        exact congrArg some (min_eq_right hle)

/-- Claim C1, amended: the timestamp used for the staleness check is the
`created_at` of the last record, in sequence order, of the latest major line;
when the history is ordered newest-first (non-increasing `created_at`), as
the registry supplies it, this is exactly the minimum `created_at` over the
records of the latest major line. -/
theorem c1_latest_major_age_sorted (history : List ReleaseRecord) (info : VersionInfo)
    (hsort : history.Pairwise (fun a b => b.created_at ≤ a.created_at))
    (hf : fetchLatestVersionInfo history = some info) :
    minCreatedAt (specLatestMajorLine history) = some info.majorReleaseDate := by
  unfold fetchLatestVersionInfo at hf
  unfold specLatestMajorLine
  cases hs : history.filter (fun v => !v.prerelease) with
  | nil =>
    rw [hs] at hf
    exact Option.noConfusion hf
  | cons latest rest =>
    rw [hs] at hf
    simp only at hf
    have hsortf : ((latest :: rest).filter
        (fun v => jsNumEq (jsMajorOf v.number) (jsMajorOf latest.number))).Pairwise
        (fun a b => b.created_at ≤ a.created_at) := by
      have h1 : (history.filter (fun v => !v.prerelease)).Pairwise
          (fun a b => b.created_at ≤ a.created_at) :=
        List.Pairwise.sublist (List.filter_sublist history) hsort
      rw [hs] at h1
      exact List.Pairwise.sublist (List.filter_sublist _) h1
    have hmv := minCreatedAt_sorted _ hsortf
    cases hl : ((latest :: rest).filter
        (fun v => jsNumEq (jsMajorOf v.number) (jsMajorOf latest.number))).getLast? with
    | none =>
      rw [hl] at hf
      exact Option.noConfusion hf
    | some oldest =>
      rw [hl] at hf
      rw [hmv, hl]
      have : info = ⟨latest.number, oldest.created_at⟩ := (Option.some_injective _ hf).symm
      rw [this]
      rfl

/-- Witness for the amended claim C1 on a sorted history. -/
theorem c1_latest_major_age_sorted_witness :
    minCreatedAt (specLatestMajorLine
      [⟨"3.1.0".toList, false, 300⟩, ⟨"3.0.0".toList, false, 100⟩,
        ⟨"2.0.0".toList, false, 50⟩]) = some 100 :=
  c1_latest_major_age_sorted
    [⟨"3.1.0".toList, false, 300⟩, ⟨"3.0.0".toList, false, 100⟩, ⟨"2.0.0".toList, false, 50⟩]
    ⟨"3.1.0".toList, 100⟩ (by decide) (by decide)

/-! Structural behaviour of the rebuilder on well-formed declaration lines -/

theorem jsIsWs_of_isQuote {q : Char} (h : isQuote q = true) : jsIsWs q = false := by
  unfold isQuote at h
  rcases Bool.or_eq_true_iff.mp h with h1 | h1
  · rw [eq_of_beq h1]; decide
  · rw [eq_of_beq h1]; decide

theorem stripLit_gem_cons (c : Char) (t : List Char) :
    stripLit ("gem".toList) (c :: t) = if 'g' = c then stripLit ("em".toList) t else none := rfl

theorem tryAfterGem_ws_head (name : List Char) (c : Char) (t : List Char)
    (hc : jsIsWs c = true) : tryAfterGem name (c :: t) = none := by
  have hg : ¬('g' = c) := by
    intro h
    rw [← h] at hc
    exact absurd hc (by decide)
  unfold tryAfterGem
  rw [stripLit_gem_cons, if_neg hg]

theorem matchAfterGem_skip_ws (name pre s : List Char)
    (hp : ∀ c ∈ pre, jsIsWs c = true) :
    matchAfterGem name (pre ++ s) = matchAfterGem name s := by
  induction pre with
  | nil => rfl
  | cons c t ih =>
    have hc := hp c (List.mem_cons_self c t)
    show matchAfterGem name (c :: (t ++ s)) = matchAfterGem name s
    simp only [matchAfterGem]
    rw [tryAfterGem_ws_head name c (t ++ s) hc]
    exact ih (fun x hx => hp x (List.mem_cons_of_mem c hx))

theorem dropWhile_cons_all {p : Char → Bool} {w : Char} {ws : List Char} {y : Char}
    {ys : List Char} (hw : p w = true) (hws : ∀ x ∈ ws, p x = true) (hy : p y = false) :
    (w :: (ws ++ y :: ys)).dropWhile p = y :: ys := by
  rw [List.dropWhile_cons, if_pos hw]
  exact dropWhile_append_of_all hws hy

theorem tryAfterGem_structured (name ws1 ws2 tail : List Char) (q1 q2 c : Char)
    (hws1 : ∀ x ∈ ws1, jsIsWs x = true) (hws1ne : ws1 ≠ [])
    (hws2 : ∀ x ∈ ws2, jsIsWs x = true)
    (hq1 : isQuote q1 = true) (hq2 : isQuote q2 = true) (hc : jsIsWs c = false) :
    tryAfterGem name ('g' :: 'e' :: 'm' :: (ws1 ++ q1 :: (name ++ q2 :: (ws2 ++ c :: tail)))) =
      some (c :: tail) := by
  obtain ⟨w, ws1t, rfl⟩ : ∃ w ws1t, ws1 = w :: ws1t := by
    cases ws1 with
    | nil => exact absurd rfl hws1ne
    | cons w t => exact ⟨w, t, rfl⟩
  have hw : jsIsWs w = true := hws1 w (List.mem_cons_self _ _)
  have hws1t : ∀ x ∈ ws1t, jsIsWs x = true := fun x hx => hws1 x (List.mem_cons_of_mem _ hx)
  unfold tryAfterGem
  rw [show stripLit ("gem".toList)
      ('g' :: 'e' :: 'm' :: ((w :: ws1t) ++ q1 :: (name ++ q2 :: (ws2 ++ c :: tail)))) =
      some ((w :: ws1t) ++ q1 :: (name ++ q2 :: (ws2 ++ c :: tail))) from
    stripLit_append ("gem".toList) _]
  simp only [List.cons_append, hw, if_true]
  rw [dropWhile_cons_all hw hws1t (jsIsWs_of_isQuote hq1)]
  simp only [hq1, if_true]
  rw [stripLit_append name (q2 :: (ws2 ++ c :: tail))]
  simp only [hq2, if_true]
  rw [dropWhile_append_of_all hws2 hc]

theorem matchAfterGem_structured (name indent ws1 ws2 tail : List Char) (q1 q2 c : Char)
    (hind : ∀ x ∈ indent, jsIsWs x = true)
    (hws1 : ∀ x ∈ ws1, jsIsWs x = true) (hws1ne : ws1 ≠ [])
    (hws2 : ∀ x ∈ ws2, jsIsWs x = true)
    (hq1 : isQuote q1 = true) (hq2 : isQuote q2 = true) (hc : jsIsWs c = false) :
    matchAfterGem name (indent ++ 'g' :: 'e' :: 'm' ::
      (ws1 ++ q1 :: (name ++ q2 :: (ws2 ++ c :: tail)))) = some (c :: tail) := by
  rw [matchAfterGem_skip_ws name indent _ hind]
  simp only [matchAfterGem]
  rw [tryAfterGem_structured name ws1 ws2 tail q1 q2 c hws1 hws1ne hws2 hq1 hq2 hc]

theorem stripConstraint_comma (r1 : List Char) :
    stripConstraint (',' :: r1) =
      (match r1.dropWhile jsIsWs with
      | q :: r3 =>
        if isQuote q then
          match r3.dropWhile (fun c => !(isQuote c)) with
          | _ :: r5 => r5
          | [] => ',' :: r1
        else ',' :: r1
      | [] => ',' :: r1) := rfl

theorem stripConstraint_structured (ws3 ctok rest2 : List Char) (q3 q4 : Char)
    (hws3 : ∀ x ∈ ws3, jsIsWs x = true) (hq3 : isQuote q3 = true) (hq4 : isQuote q4 = true)
    (hctok : ∀ x ∈ ctok, isQuote x = false) :
    stripConstraint (',' :: (ws3 ++ q3 :: (ctok ++ q4 :: rest2))) = rest2 := by
  rw [stripConstraint_comma]
  rw [dropWhile_append_of_all hws3 (jsIsWs_of_isQuote hq3)]
  simp only [hq3, if_true]
  rw [@dropWhile_append_of_all (fun c => !(isQuote c)) ctok q4 rest2
    (fun x hx => by show (!(isQuote x)) = true; rw [hctok x hx]; rfl)
    (by show (!(isQuote q4)) = false; rw [hq4]; rfl)]

theorem buildGemLine_structured (line indent ws1 ws2 ws3 name ctok rest2 version : List Char)
    (q1 q2 q3 q4 : Char)
    (hind : ∀ x ∈ indent, jsIsWs x = true)
    (hws1 : ∀ x ∈ ws1, jsIsWs x = true) (hws1ne : ws1 ≠ [])
    (hws2 : ∀ x ∈ ws2, jsIsWs x = true)
    (hws3 : ∀ x ∈ ws3, jsIsWs x = true)
    (hq1 : isQuote q1 = true) (hq2 : isQuote q2 = true)
    (hq3 : isQuote q3 = true) (hq4 : isQuote q4 = true)
    (hctok : ∀ x ∈ ctok, isQuote x = false)
    (hline : line = indent ++ 'g' :: 'e' :: 'm' ::
      (ws1 ++ q1 :: (name ++ q2 :: (ws2 ++ ',' :: (ws3 ++ q3 :: (ctok ++ q4 :: rest2)))))) :
    buildGemLine line name version =
      indent ++ "gem ".toList ++ quoteOf line name :: name ++ quoteOf line name :: ", ".toList ++
        quoteOf line name :: "~> ".toList ++ version ++ [quoteOf line name] ++
        (if (jsTrim rest2).isEmpty then [] else jsTrimEnd rest2) := by
  unfold buildGemLine
  rw [show line.takeWhile jsIsWs = indent from by
    rw [hline]; exact takeWhile_append_of_all hind (by decide)]
  rw [show matchAfterGem name line = some (',' :: (ws3 ++ q3 :: (ctok ++ q4 :: rest2))) from by
    rw [hline]
    exact matchAfterGem_structured name indent ws1 ws2 _ q1 q2 ','
      hind hws1 hws1ne hws2 hq1 hq2 (by decide)]
  simp only
  rw [stripConstraint_structured ws3 ctok rest2 q3 q4 hws3 hq3 hq4 hctok]
  cases he : (jsTrim rest2).isEmpty with
  | false => simp [he, List.append_assoc]
  | true => simp [he, List.append_assoc]

/-! Claim C5: byte preservation outside the constraint token -/

/-- Counterexample to claim C5 as stated: the trailing whitespace of the
original line lies outside the version-constraint token, yet it is not
preserved in the rebuilt line. -/
theorem c5_counterexample :
    buildGemLine ("gem \"g\", \"1.0\" # keep ".toList) ("g".toList) ("2.0".toList) =
        "gem \"g\", \"~> 2.0\" # keep".toList ∧
      (" # keep ".toList : List Char) <:+ ("gem \"g\", \"1.0\" # keep ".toList) ∧
      ¬((" # keep ".toList : List Char) <:+
        buildGemLine ("gem \"g\", \"1.0\" # keep ".toList) ("g".toList) ("2.0".toList)) := by
  decide

/-- Claim C5, amended: for a rewritten declaration line, the leading
whitespace, the dependency name and the text following the version-constraint
token are carried over into the rebuilt line, except that the remaining
trailing text is trimmed of trailing whitespace (dropped entirely when it is
all whitespace), the spacing between keyword, name and constraint is
canonicalized to single spaces, and the quote characters are canonicalized to
the detected quote style. -/
theorem c5_frame_preservation (line indent ws1 ws2 ws3 name ctok rest2 version : List Char)
    (q1 q2 q3 q4 : Char)
    (hind : ∀ x ∈ indent, jsIsWs x = true)
    (hws1 : ∀ x ∈ ws1, jsIsWs x = true) (hws1ne : ws1 ≠ [])
    (hws2 : ∀ x ∈ ws2, jsIsWs x = true)
    (hws3 : ∀ x ∈ ws3, jsIsWs x = true)
    (hq1 : isQuote q1 = true) (hq2 : isQuote q2 = true)
    (hq3 : isQuote q3 = true) (hq4 : isQuote q4 = true)
    (hctok : ∀ x ∈ ctok, isQuote x = false)
    (hline : line = indent ++ 'g' :: 'e' :: 'm' ::
      (ws1 ++ q1 :: (name ++ q2 :: (ws2 ++ ',' :: (ws3 ++ q3 :: (ctok ++ q4 :: rest2)))))) :
    buildGemLine line name version =
      indent ++ "gem ".toList ++ quoteOf line name :: name ++ quoteOf line name :: ", ".toList ++
        quoteOf line name :: "~> ".toList ++ version ++ [quoteOf line name] ++
        (if (jsTrim rest2).isEmpty then [] else jsTrimEnd rest2) :=
  buildGemLine_structured line indent ws1 ws2 ws3 name ctok rest2 version q1 q2 q3 q4
    hind hws1 hws1ne hws2 hws3 hq1 hq2 hq3 hq4 hctok hline

/-- Witness for the amended claim C5: the comment after the constraint is
preserved, the indentation and name verbatim. -/
theorem c5_frame_preservation_witness :
    buildGemLine ("gem \"foo\", \"~> 1.0\" # note".toList) ("foo".toList) ("2.0".toList) =
      "gem \"foo\", \"~> 2.0\" # note".toList := by
  have h := c5_frame_preservation ("gem \"foo\", \"~> 1.0\" # note".toList) [] [' '] [] [' ']
    ("foo".toList) ("~> 1.0".toList) (" # note".toList) ("2.0".toList)
    dquote dquote dquote dquote
    (by decide) (by decide) (by decide) (by decide) (by decide)
    (by decide) (by decide) (by decide) (by decide) (by decide) (by decide)
  rw [h]
  decide

/-! Claim C6: the emitted template and the quote style -/

/-- Counterexample to claim C6 as stated: the name's first quoted occurrence
on the line uses double quotes, yet the rebuilt line is emitted with single
quotes because the name also appears single-quoted later (inside a
comment). -/
theorem c6_counterexample :
    specFirstQuoteStyle ("foo".toList) ("gem \"foo\", \"1.0\" # 'foo'".toList) = some dquote ∧
      buildGemLine ("gem \"foo\", \"1.0\" # 'foo'".toList) ("foo".toList) ("2.0".toList) =
        "gem 'foo', '~> 2.0' # 'foo'".toList ∧
      buildGemLine ("gem \"foo\", \"1.0\" # 'foo'".toList) ("foo".toList) ("2.0".toList) ≠
        "gem \"foo\", \"~> 2.0\" # 'foo'".toList := by
  decide

/-- Claim C6, amended: rebuild emits
`<indent>gem <q><name><q>, <q>~> <version><q><remaining-trailing-text>`,
where `<q>` is a single quote when the original line contains the name
wrapped in single quotes anywhere on the line, and a double quote
otherwise. -/
theorem c6_emitted_shape (line indent ws1 ws2 ws3 name ctok rest2 version : List Char)
    (q1 q2 q3 q4 : Char)
    (hind : ∀ x ∈ indent, jsIsWs x = true)
    (hws1 : ∀ x ∈ ws1, jsIsWs x = true) (hws1ne : ws1 ≠ [])
    (hws2 : ∀ x ∈ ws2, jsIsWs x = true)
    (hws3 : ∀ x ∈ ws3, jsIsWs x = true)
    (hq1 : isQuote q1 = true) (hq2 : isQuote q2 = true)
    (hq3 : isQuote q3 = true) (hq4 : isQuote q4 = true)
    (hctok : ∀ x ∈ ctok, isQuote x = false)
    (hline : line = indent ++ 'g' :: 'e' :: 'm' ::
      (ws1 ++ q1 :: (name ++ q2 :: (ws2 ++ ',' :: (ws3 ++ q3 :: (ctok ++ q4 :: rest2)))))) :
    buildGemLine line name version =
      indent ++ "gem ".toList ++ quoteOf line name :: name ++ quoteOf line name :: ", ".toList ++
        quoteOf line name :: "~> ".toList ++ version ++ [quoteOf line name] ++
        (if (jsTrim rest2).isEmpty then [] else jsTrimEnd rest2) ∧
      quoteOf line name =
        (if jsIncludes line (squote :: (name ++ [squote])) then squote else dquote) :=
  ⟨buildGemLine_structured line indent ws1 ws2 ws3 name ctok rest2 version q1 q2 q3 q4
    hind hws1 hws1ne hws2 hws3 hq1 hq2 hq3 hq4 hctok hline, rfl⟩

/-- Witness for the amended claim C6 on a single-quoted line. -/
theorem c6_emitted_shape_witness :
    buildGemLine ("gem 'bar', '1.0' # x".toList) ("bar".toList) ("3.1".toList) =
      "gem 'bar', '~> 3.1' # x".toList := by
  have h := c6_emitted_shape ("gem 'bar', '1.0' # x".toList) [] [' '] [] [' ']
    ("bar".toList) ("1.0".toList) (" # x".toList) ("3.1".toList)
    squote squote squote squote
    (by decide) (by decide) (by decide) (by decide) (by decide)
    (by decide) (by decide) (by decide) (by decide) (by decide) (by decide)
  rw [h.1]
  decide

/-! Claim C7: idempotence of rebuild -/

/-- Counterexample to claim C7 as stated: a line whose constraint already
equals the target version, but with two spaces before the constraint token,
is not rebuilt byte-identically (and no quote changes, so canonical quote
style cannot excuse the difference). -/
theorem c7_counterexample :
    (parseGemLine ("gem \"foo\",  \"~> 1.0\"".toList)).currentVersion = some ("1.0".toList) ∧
      buildGemLine ("gem \"foo\",  \"~> 1.0\"".toList) ("foo".toList) ("1.0".toList) =
        "gem \"foo\", \"~> 1.0\"".toList ∧
      buildGemLine ("gem \"foo\",  \"~> 1.0\"".toList) ("foo".toList) ("1.0".toList) ≠
        "gem \"foo\",  \"~> 1.0\"".toList := by
  decide

/-- Claim C7, amended: rebuild is idempotent on canonical already-current
lines: a declaration line consisting of arbitrary indentation, `gem `, the
quoted name, `, `, the quoted constraint `~> version`, and trailing text that
is either empty or ends in a non-whitespace character, with the quote
character matching the detected quote style, is rebuilt with the same target
version into a byte-identical line. -/
theorem c7_rebuild_idempotent_canonical (line indent name version rest2 : List Char) (q : Char)
    (hind : ∀ x ∈ indent, jsIsWs x = true)
    (hq : isQuote q = true)
    (hv : ∀ x ∈ version, isQuote x = false)
    (hrest : rest2 = [] ∨ ((jsTrim rest2).isEmpty = false ∧ jsTrimEnd rest2 = rest2))
    (hquote : quoteOf line name = q)
    (hline : line = indent ++ 'g' :: 'e' :: 'm' ::
      ([' '] ++ q :: (name ++ q :: ([] ++ ',' :: ([' '] ++ q ::
        (('~' :: '>' :: ' ' :: version) ++ q :: rest2)))))) :
    buildGemLine line name version = line := by
  have hctok : ∀ x ∈ '~' :: '>' :: ' ' :: version, isQuote x = false := by
    intro x hx
    simp only [List.mem_cons] at hx
    rcases hx with rfl | rfl | rfl | hx2
    · decide
    · decide
    · decide
    · exact hv x hx2
  have h := buildGemLine_structured line indent [' '] [] [' '] name
    ('~' :: '>' :: ' ' :: version) rest2 version q q q q
    hind (by decide) (by decide) (by decide) (by decide) hq hq hq hq hctok hline
  rw [h, hquote, hline]
  have hg : ("gem ".toList : List Char) = 'g' :: 'e' :: 'm' :: ' ' :: [] := rfl
  have hcs : (", ".toList : List Char) = ',' :: ' ' :: [] := rfl
  have ht : ("~> ".toList : List Char) = '~' :: '>' :: ' ' :: [] := rfl
  rcases hrest with h0 | ⟨h1, h2⟩
  · subst h0
    rw [show (jsTrim ([] : List Char)).isEmpty = true from rfl]
    simp [hg, hcs, ht]
  · rw [h1, h2]
    simp [hg, hcs, ht]

/-- Witness for the amended claim C7 on a canonical line with a trailing
option. -/
theorem c7_rebuild_idempotent_canonical_witness :
    buildGemLine ("  gem 'foo', '~> 1.2', require: false".toList) ("foo".toList)
        ("1.2".toList) =
      "  gem 'foo', '~> 1.2', require: false".toList := by
  exact c7_rebuild_idempotent_canonical ("  gem 'foo', '~> 1.2', require: false".toList)
    ("  ".toList) ("foo".toList) ("1.2".toList) (", require: false".toList) squote
    (by decide) (by decide) (by decide) (Or.inr (by decide)) (by decide) (by decide)

end GemfileUtils
